import Mathlib

/-!
Verification of the eventmq Scheduler (src/eventmq/scheduler.py).

The development shallowly embeds the scheduler's catalog state and its
operations: the SCHEDULE handler (on_schedule), the UNSCHEDULE handler
(unschedule_job), the recovery load path (load_job_from_redis / load_jobs),
the run-count header parser (get_run_count_from_headers), the job identity
hash (schedule_hash), and the time-driven sweep portion of the event loop
(_start_event_loop).

Modelling conventions, stated once here:
* JSON values are modelled by the inductive type JVal; serialized strings and
  their parsed values are identified, so a Message carries its payload as the
  parsed JVal and the redis store maps hashes to Message values directly
  (serialize/deserialize round-trips are the identity in the model).
* The external sha1 hex digest (hashlib) is an abstract parameter
  digest : String -> String of every operation that hashes; all catalog
  behaviour depends only on equality of digests, and every theorem holds for
  an arbitrary digest function.
* The external croniter library is an abstract parameter
  cronDb : String -> Option (Nat -> Int): parsing the expression either
  fails (croniter raises) or yields the infinite sequence of successive
  values returned by next() on the iterator.  A live croniter object stored
  in a catalog entry is modelled by its expression together with the number
  of next() calls already made.
* Python dicts are modelled by association lists with insertion-order
  semantics (update in place, new keys appended); monotonic() and
  timestamp() are integer parameters supplied to each operation.
* Fallible handlers return Option; none models a raised exception.
-/

namespace EventMQ

/-- JSON values as manipulated by json.dumps / json.loads in the source.
Objects are association lists of string keys (python dicts, unique keys). -/
inductive JVal where
  | jnull : JVal
  | jbool : Bool → JVal
  | jnum : Int → JVal
  | jstr : String → JVal
  | jarr : List JVal → JVal
  | jobj : List (String × JVal) → JVal

/-- Code-point-wise less-or-equal on character lists (lexicographic), the
order by which json.dumps(sort_keys=True) sorts object keys. -/
def charsLe : List Char → List Char → Bool
  | [], _ => true
  | _ :: _, [] => false
  | a :: as, b :: bs => if a = b then charsLe as bs else decide (a < b)

/-- Lexicographic less-or-equal on strings. -/
def strLe (a b : String) : Bool := charsLe a.toList b.toList

/-- The ordering relation used to sort rendered object entries. -/
def strLeP (a b : String) : Prop := strLe a b = true

instance : DecidableRel strLeP := fun a b => instDecidableEqBool (strLe a b) true

/-- Minimal JSON string escaping (backslash and double quote), as applied by
json.dumps to the keys and string values being serialized. -/
def escapeJ (s : String) : String :=
  String.mk (s.toList.foldr
    (fun c acc => if c = '\\' ∨ c = '"' then '\\' :: c :: acc else c :: acc) [])

mutual

/-- json.dumps(-, sort_keys=True): renders a JSON value to a string, sorting
the entries of every object.  Each object entry is rendered to its full
string and the rendered entries are sorted lexicographically; for objects
with pairwise distinct keys (all python dicts) this agrees with sorting by
raw key, and only equality of rendered strings matters to the theorems. -/
def renderJ : JVal → String
  | .jnull => "null"
  | .jbool true => "true"
  | .jbool false => "false"
  | .jnum n => toString n
  | .jstr s => "\"" ++ escapeJ s ++ "\""
  | .jarr xs => "[" ++ String.intercalate ", " (renderListJ xs) ++ "]"
  | .jobj xs =>
      "\x7b" ++ String.intercalate ", " (List.insertionSort strLeP (renderEntriesJ xs))
        ++ "\x7d"

/-- Renders each element of a JSON array. -/
def renderListJ : List JVal → List String
  | [] => []
  | x :: xs => renderJ x :: renderListJ xs

/-- Renders each object entry to the string key-colon-value. -/
def renderEntriesJ : List (String × JVal) → List String
  | [] => []
  | (k, v) :: xs => ("\"" ++ escapeJ k ++ "\": " ++ renderJ v) :: renderEntriesJ xs

end

mutual

/-- Two JSON values are equal up to dict-key order: identical atoms, arrays
pointwise related, objects a permutation of pointwise related entries. -/
inductive KeyPerm : JVal → JVal → Prop where
  | jnull : KeyPerm .jnull .jnull
  | jbool (b : Bool) : KeyPerm (.jbool b) (.jbool b)
  | jnum (n : Int) : KeyPerm (.jnum n) (.jnum n)
  | jstr (s : String) : KeyPerm (.jstr s) (.jstr s)
  | jarr {xs ys : List JVal} : KeyPermL xs ys → KeyPerm (.jarr xs) (.jarr ys)
  | jobj {xs zs ys : List (String × JVal)} :
      KeyPermO xs zs → zs.Perm ys → KeyPerm (.jobj xs) (.jobj ys)

/-- Pointwise KeyPerm on lists of JSON values. -/
inductive KeyPermL : List JVal → List JVal → Prop where
  | nil : KeyPermL [] []
  | cons {x y : JVal} {xs ys : List JVal} :
      KeyPerm x y → KeyPermL xs ys → KeyPermL (x :: xs) (y :: ys)

/-- Pointwise same-key, KeyPerm-value relation on object entry lists. -/
inductive KeyPermO : List (String × JVal) → List (String × JVal) → Prop where
  | nil : KeyPermO [] []
  | cons {k : String} {v w : JVal} {xs ys : List (String × JVal)} :
      KeyPerm v w → KeyPermO xs ys → KeyPermO ((k, v) :: xs) ((k, w) :: ys)

end

/-- Prefix test on character lists: the first list is an initial segment of
the second. -/
def charsAgree : List Char → List Char → Bool
  | [], _ => true
  | _ :: _, [] => false
  | a :: as, b :: bs => if a = b then charsAgree as bs else false

/-- Substring test on character lists (python's needle in haystack). -/
def charsHasSub (needle : List Char) : List Char → Bool
  | [] => charsAgree needle []
  | c :: t => charsAgree needle (c :: t) || charsHasSub needle t

/-- Python's substring containment: needle in hay. -/
def pyIn (needle hay : String) : Bool := charsHasSub needle.toList hay.toList

/-- A SCHEDULE / UNSCHEDULE message, the five-field tuple of the source
(queue, headers, interval, payload, cron); message[2] is already converted
to an integer and message[3] is carried as its parsed JSON value. -/
structure Message where
  queue : String
  headers : String
  interval : Int
  payload : JVal
  cron : String

/-- Lookup in an insertion-ordered association list (python dict read). -/
def alookup {α : Type} : List (String × α) → String → Option α
  | [], _ => none
  | (k, v) :: xs, h => if k = h then some v else alookup xs h

/-- Update-or-append on an association list (python dict write). -/
def aset {α : Type} : List (String × α) → String → α → List (String × α)
  | [], h, v => [(h, v)]
  | (k, w) :: xs, h, v => if k = h then (h, v) :: xs else (k, w) :: aset xs h v

/-- Remove a key from an association list (python dict pop / del). -/
def aerase {α : Type} : List (String × α) → String → List (String × α)
  | [], _ => []
  | (k, w) :: xs, h => if k = h then xs else (k, w) :: aerase xs h

/-- Key membership in an association list (python: h in d). -/
def amem {α : Type} (l : List (String × α)) (h : String) : Bool :=
  (alookup l h).isSome

/-- Update the value at a key in place, if present. -/
def amodify {α : Type} : List (String × α) → String → (α → α) → List (String × α)
  | [], _, _ => []
  | (k, w) :: xs, h, f => if k = h then (k, f w) :: xs else (k, w) :: amodify xs h f

/-- Index access into a JSON array (python: j[i]). -/
def jIndex : JVal → Nat → Option JVal
  | .jarr xs, i => xs[i]?
  | _, _ => none

/-- Key access into a JSON object (python: j[k]). -/
def jGet : JVal → String → Option JVal
  | .jobj xs, k => alookup xs k
  | _, _ => none

/-- The identity dict that schedule_hash serializes: the six fields
args, kwargs, class_args, class_kwargs, path, callable of
deserialize(message[3])[1]; none models the KeyError / IndexError raised by
the source on a malformed payload. -/
def scheduleHashItems (payload : JVal) : Option JVal :=
  match jIndex payload 1 with
  | none => none
  | some msg =>
    match jGet msg "args", jGet msg "kwargs", jGet msg "class_args",
          jGet msg "class_kwargs", jGet msg "path", jGet msg "callable" with
    | some a, some kw, some ca, some ckw, some p, some c =>
        some (.jobj [("args", a), ("kwargs", kw), ("class_args", ca),
                     ("class_kwargs", ckw), ("path", p), ("callable", c)])
    | _, _, _, _, _, _ => none

/-- Scheduler.schedule_hash: the digest of the sorted-keys JSON dump of the
identity dict.  digest abstracts hashlib's sha1 hex digest. -/
def schedule_hash (digest : String → String) (m : Message) : Option String :=
  (scheduleHashItems m.payload).map (fun j => digest (renderJ j))

/-- Splits a character list at every occurrence of the separator character
(python str.split with a one-character separator, the only form the source
uses). -/
def splitCharGo (sep : Char) : List Char → List (List Char)
  | [] => [[]]
  | c :: t =>
    match splitCharGo sep t with
    | [] => [[]]
    | g :: gs => if c = sep then [] :: g :: gs else (c :: g) :: gs

/-- Python s.split(sep) for a one-character separator. -/
def pySplit (s : String) (sep : Char) : List String :=
  (splitCharGo sep s.toList).map String.mk

/-- Accumulates the value of a decimal digit string; none on a non-digit. -/
def digitsToNatGo : Nat → List Char → Option Nat
  | acc, [] => some acc
  | acc, c :: t =>
      if c.isDigit then digitsToNatGo (acc * 10 + (c.toNat - 48)) t else none

/-- Python int(s): an optional minus sign followed by at least one decimal
digit; none models the ValueError on anything else (surrounding whitespace
and an explicit plus, which the source never produces, are not modelled). -/
def pyToInt (s : String) : Option Int :=
  match s.toList with
  | [] => none
  | '-' :: t =>
    match t with
    | [] => none
    | _ :: _ => (digitsToNatGo 0 t).map (fun n => -(n : Int))
  | l => (digitsToNatGo 0 l).map (fun n => (n : Int))

/-- Scheduler.get_run_count_from_headers, folded over the comma-split header
tokens; the running value starts at INFINITE_RUN_COUNT = -1 and the last
run_count: token wins; none models the ValueError int() raises on a
malformed count. -/
def runCountGo : Int → List String → Option Int
  | acc, [] => some acc
  | acc, h :: t =>
      if pyIn "run_count:" h then
        match pyToInt ((pySplit h ':').getD 1 "") with
        | some v => runCountGo v t
        | none => none
      else runCountGo acc t

/-- Scheduler.get_run_count_from_headers. -/
def get_run_count_from_headers (headers : String) : Option Int :=
  runCountGo (-1) (pySplit headers ',')

/-- Modelled from the spec: utils.timeutils.IntervalIter is not under src/;
per the spec's iterator contract it is anchored at t0 with period p and its
successive next() values are t0 + p, t0 + 2p, and so on.  pos counts the
next() calls already made. -/
structure IntervalIter where
  anchor : Int
  period : Int
  pos : Nat

/-- Modelled from the spec: one next() call on an IntervalIter returns the
following point of the arithmetic progression and advances the iterator. -/
def IntervalIter.next (it : IntervalIter) : Int × IntervalIter :=
  (it.anchor + it.period * (it.pos + 1), ⟨it.anchor, it.period, it.pos + 1⟩)

/-- A live croniter object, modelled by its expression together with the
number of next() calls already made; the values themselves come from the
abstract cronDb parameter. -/
structure CronIter where
  expr : String
  pos : Nat

/-- An interval_jobs entry: the 5-item list
[next ts, message, interval iter, queue, run_count]. -/
structure IntervalEntry where
  next_mono : Int
  payload : JVal
  iter : IntervalIter
  queue : String
  run_count : Int

/-- A cron_jobs entry: the 4-item list [next ts, message, croniter, queue]. -/
structure CronEntry where
  next_wall : Int
  payload : JVal
  iter : CronIter
  queue : Option String

/-- A REQUEST sent to the broker: the forwarded payload and the queue tag. -/
structure Dispatch where
  payload : JVal
  queue : Option String

/-- The scheduler's catalog plus the redis store it persists into:
store_kv holds hash to serialized-message bindings, store_list is the
redis list named interval_jobs. -/
structure SchedState where
  interval_jobs : List (String × IntervalEntry)
  cron_jobs : List (String × CronEntry)
  store_kv : List (String × Message)
  store_list : List String

/-- The state of a freshly constructed scheduler with an empty store. -/
def emptyState : SchedState := ⟨[], [], [], []⟩

/-- Scheduler.on_schedule.  mono and ts are the monotonic() and
int(timestamp()) readings taken during the call; none models an exception
escaping the handler (malformed run_count header, malformed payload, or a
croniter parse failure). -/
def on_schedule (digest : String → String) (cronDb : String → Option (Nat → Int))
    (mono ts : Int) (s : SchedState) (m : Message) :
    Option (SchedState × List Dispatch) := do
  let run_count ← get_run_count_from_headers m.headers
  let h ← schedule_hash digest m
  let interval_job := decide (m.interval ≥ 0)
  let s1 ←
    if interval_job then
      let it0 : IntervalIter := ⟨mono, m.interval, 0⟩
      let r := it0.next
      some { s with
        interval_jobs := aset s.interval_jobs h ⟨r.1, m.payload, r.2, m.queue, run_count⟩,
        cron_jobs := if amem s.cron_jobs h then aerase s.cron_jobs h else s.cron_jobs }
    else do
      let f ← cronDb m.cron
      let c0 := f 0
      let e : CronEntry :=
        if ts ≥ c0 then ⟨f 1, m.payload, ⟨m.cron, 2⟩, none⟩
        else ⟨c0, m.payload, ⟨m.cron, 1⟩, none⟩
      some { s with
        cron_jobs := aset s.cron_jobs h e,
        interval_jobs := if amem s.interval_jobs h then aerase s.interval_jobs h
          else s.interval_jobs }
  let s2 := { s1 with
    store_list := if h ∈ s1.store_list then s1.store_list else h :: s1.store_list,
    store_kv := aset s1.store_kv h m }
  if pyIn "nohaste" m.headers then
    some (s2, [])
  else
    if run_count > 0 ∨ run_count = -1 then
      let s3 :=
        if run_count > 0 ∧ interval_job = true then
          { s2 with interval_jobs :=
              amodify s2.interval_jobs h (fun e => { e with run_count := e.run_count - 1 }) }
        else s2
      some (s3, [⟨m.payload, some m.queue⟩])
    else
      some (s2, [])

/-- Modelled from the spec: the service shell that dispatches incoming frames
to on_schedule is not under src/; per the spec a malformed SCHEDULE is
logged and dropped, leaving the catalog unchanged, so a raising handler
yields the unchanged state and no dispatch. -/
def handle_schedule (digest : String → String) (cronDb : String → Option (Nat → Int))
    (mono ts : Int) (s : SchedState) (m : Message) : SchedState × List Dispatch :=
  (on_schedule digest cronDb mono ts s m).getD (s, [])

/-- Scheduler.unschedule_job: pop the hash from whichever map holds it (warn
otherwise), then double-check the store: when the key is present, delete it,
LREM it from the interval_jobs list (count 0 removes every occurrence) and
save. -/
def unschedule_job (digest : String → String) (s : SchedState) (m : Message) :
    Option SchedState := do
  let h ← schedule_hash digest m
  let s1 :=
    if amem s.interval_jobs h then { s with interval_jobs := aerase s.interval_jobs h }
    else if amem s.cron_jobs h then { s with cron_jobs := aerase s.cron_jobs h }
    else s
  some (if (alookup s1.store_kv h).isSome then
    { s1 with store_kv := aerase s1.store_kv h,
              store_list := s1.store_list.filter (fun x => if x = h then false else true) }
  else s1)

/-- The UNSCHEDULE handler seen from the service shell: a raised exception
(unhashable message) leaves the state unchanged. -/
def handle_unschedule (digest : String → String) (s : SchedState) (m : Message) :
    SchedState :=
  (unschedule_job digest s m).getD s

/-- Scheduler.load_job_from_redis: re-install one persisted message without
dispatching.  The utf-8 encode of the queue is the identity on the modelled
strings; note the cron expression is consulted only when interval is
exactly -1, and the cron path records the message's queue. -/
def load_job_from_redis (digest : String → String)
    (cronDb : String → Option (Nat → Int)) (mono ts : Int)
    (s : SchedState) (m : Message) : Option SchedState := do
  let h ← schedule_hash digest m
  let cron := if m.interval = -1 then m.cron else ""
  if m.interval ≥ 0 then do
    let rc ← get_run_count_from_headers m.headers
    let it0 : IntervalIter := ⟨mono, m.interval, 0⟩
    let r := it0.next
    some { s with
      interval_jobs := aset s.interval_jobs h ⟨r.1, m.payload, r.2, m.queue, rc⟩ }
  else if cron ≠ "" then do
    let f ← cronDb cron
    let c0 := f 0
    let e : CronEntry :=
      if ts ≥ c0 then ⟨f 1, m.payload, ⟨cron, 2⟩, some m.queue⟩
      else ⟨c0, m.payload, ⟨cron, 1⟩, some m.queue⟩
    some { s with cron_jobs := aset s.cron_jobs h e }
  else
    some s

/-- Scheduler.load_jobs' loop body over the persisted hash list: a hash with
no stored value is skipped with a warning; an exception while loading one
value is caught by load_jobs' blanket handler, abandoning the remaining
hashes. -/
def load_jobs_go (digest : String → String) (cronDb : String → Option (Nat → Int))
    (mono ts : Int) : SchedState → List String → SchedState
  | s, [] => s
  | s, h :: t =>
    match alookup s.store_kv h with
    | some m =>
      match load_job_from_redis digest cronDb mono ts s m with
      | some s2 => load_jobs_go digest cronDb mono ts s2 t
      | none => s
    | none => load_jobs_go digest cronDb mono ts s t

/-- Scheduler.load_jobs: recovery over the persisted interval_jobs list. -/
def load_jobs (digest : String → String) (cronDb : String → Option (Nat → Int))
    (mono ts : Int) (s : SchedState) : SchedState :=
  load_jobs_go digest cronDb mono ts s s.store_list

/-- A scheduler process restarted against the same store: empty catalog,
persisted state carried over. -/
def restart (s : SchedState) : SchedState := ⟨[], [], s.store_kv, s.store_list⟩

/-- The cron portion of one event-loop tick (_start_event_loop): each due
entry is dispatched and its croniter object advanced; the advanced deadline
is bound to a local variable only, so slot 0 of the entry is left as it
was. -/
def cronSweepGo (ts_now : Int) :
    List (String × CronEntry) → List (String × CronEntry) × List Dispatch
  | [] => ([], [])
  | (h, e) :: rest =>
    let r := cronSweepGo ts_now rest
    if e.next_wall ≤ ts_now then
      ((h, { e with iter := ⟨e.iter.expr, e.iter.pos + 1⟩ }) :: r.1,
        ⟨e.payload, e.queue⟩ :: r.2)
    else ((h, e) :: r.1, r.2)

/-- Rewrites every run_count: token of a stored header string to the given
count, as the event loop's redis update does. -/
def rewrite_run_count_headers (headers : String) (rc : Int) : String :=
  String.intercalate ","
    ((pySplit headers ',').map
      (fun h => if pyIn "run_count:" h then "run_count:" ++ toString rc else h))

/-- The interval portion of one event-loop tick: for each due entry, an
exhausted run_count stages the hash for cancellation; otherwise the
decremented count is written to the store copy (silently skipped when the
key is missing), the job is dispatched and the iterator object advanced.
Neither the decremented run_count nor the advanced deadline is written back
into the entry (slots 0 and 4 are only read).  Returns the swept entries,
the updated store bindings, the dispatches and the staged hashes. -/
def intervalSweepGo (m_now : Int) :
    List (String × IntervalEntry) → List (String × Message) →
    List (String × IntervalEntry) × List (String × Message) × List Dispatch × List String
  | [], kv => ([], kv, [], [])
  | (h, e) :: rest, kv =>
    if e.next_mono ≤ m_now then
      if e.run_count = -1 then
        let r := intervalSweepGo m_now rest kv
        ((h, { e with iter := ⟨e.iter.anchor, e.iter.period, e.iter.pos + 1⟩ }) :: r.1,
          r.2.1, ⟨e.payload, some e.queue⟩ :: r.2.2.1, r.2.2.2)
      else if e.run_count ≤ 0 then
        let r := intervalSweepGo m_now rest kv
        ((h, e) :: r.1, r.2.1, r.2.2.1, h :: r.2.2.2)
      else
        let kv1 := match alookup kv h with
          | some msg => aset kv h { msg with
              headers := rewrite_run_count_headers msg.headers (e.run_count - 1) }
          | none => kv
        let r := intervalSweepGo m_now rest kv1
        ((h, { e with iter := ⟨e.iter.anchor, e.iter.period, e.iter.pos + 1⟩ }) :: r.1,
          r.2.1, ⟨e.payload, some e.queue⟩ :: r.2.2.1, r.2.2.2)
    else
      let r := intervalSweepGo m_now rest kv
      ((h, e) :: r.1, r.2.1, r.2.2.1, r.2.2.2)

/-- The cancellation phase at the end of a tick.  The source's loop variable
is job_hash, left over from the interval iteration, not the staged element:
every staged entry deletes the same last-iterated key.  The store delete and
LREM sit in a try block; the del on the in-memory dict raises KeyError when
the key is already gone, which crashes the loop (none). -/
def cancelGo (lastKey : String) : Nat → SchedState → Option SchedState
  | 0, s => some s
  | n + 1, s =>
    let s1 := { s with
      store_kv := aerase s.store_kv lastKey,
      store_list := s.store_list.filter (fun x => if x = lastKey then false else true) }
    if amem s1.interval_jobs lastKey then
      cancelGo lastKey n { s1 with interval_jobs := aerase s1.interval_jobs lastKey }
    else none

/-- Keys of an association list are pairwise distinct, as in a python dict. -/
def keysNodup {α : Type} (l : List (String × α)) : Prop :=
  (l.map Prod.fst).Nodup

/-- The time-driven portion of one event-loop tick (steps: cron sweep,
interval sweep, cancellation), at wall clock ts_now and monotonic clock
m_now.  Polling, admin traffic and heartbeats are orthogonal to the claims
and are not modelled. -/
def tick (s : SchedState) (ts_now m_now : Int) : Option (SchedState × List Dispatch) :=
  let c := cronSweepGo ts_now s.cron_jobs
  let r := intervalSweepGo m_now s.interval_jobs s.store_kv
  let s1 : SchedState :=
    { s with cron_jobs := c.1, interval_jobs := r.1, store_kv := r.2.1 }
  let dispatches := c.2 ++ r.2.2.1
  match r.2.2.2 with
  | [] => some (s1, dispatches)
  | staged =>
    match (s.interval_jobs.map Prod.fst).getLast? with
    | some lastKey =>
        (cancelGo lastKey staged.length s1).map (fun s2 => (s2, dispatches))
    | none => none

/-- A control-plane operation: a SCHEDULE frame arriving at some clock
readings, or an UNSCHEDULE frame. -/
inductive SchedOp where
  | schedule (mono ts : Int) (m : Message)
  | unschedule (m : Message)

/-- Applies one control-plane operation to the state (dispatches dropped). -/
def applyOp (digest : String → String) (cronDb : String → Option (Nat → Int))
    (s : SchedState) : SchedOp → SchedState
  | .schedule mono ts m => (handle_schedule digest cronDb mono ts s m).1
  | .unschedule m => handle_unschedule digest s m

/-- Applies a sequence of control-plane operations from left to right. -/
def applyOps (digest : String → String) (cronDb : String → Option (Nat → Int))
    (s : SchedState) (ops : List SchedOp) : SchedState :=
  ops.foldl (applyOp digest cronDb) s

/-- Structural well-formedness of a catalog state: each map and the store
have python-dict-like unique keys and the two maps are disjoint. -/
def CatalogWF (s : SchedState) : Prop :=
  keysNodup s.interval_jobs ∧ keysNodup s.cron_jobs ∧ keysNodup s.store_kv ∧
  ∀ h, amem s.interval_jobs h = true → amem s.cron_jobs h = false

/-- A minimal well-formed job payload: the JSON array whose index 1 holds the
identity dict, as REQUEST payloads are laid out. -/
def samplePayload : JVal := .jarr [.jstr "run",
  .jobj [("args", .jarr []), ("kwargs", .jobj []), ("class_args", .jarr []),
         ("class_kwargs", .jobj []), ("path", .jstr "p"), ("callable", .jstr "f")]]

/-- A cron database for concrete runs in which no expression parses. -/
def noCron : String → Option (Nat → Int) := fun _ => none

/-- A cron database for concrete runs: the five-star expression yields
minute boundaries from 1020 on; everything else fails to parse. -/
def sampleCronDb : String → Option (Nat → Int) :=
  fun s => if s = "* * * * *" then some (fun n => 1020 + 60 * n) else none

/-- An interval SCHEDULE message with run_count 2 and interval 60. -/
def c1Msg : Message := ⟨"q1", "run_count:2", 60, samplePayload, ""⟩

/-- c1Msg scheduled into an empty catalog at monotonic 0, wall clock 1000. -/
def c1Sched : SchedState × List Dispatch :=
  handle_schedule id noCron 0 1000 emptyState c1Msg

/-- The first event-loop tick after c1Msg's deadline (monotonic 60). -/
def c1Tick1 : Option (SchedState × List Dispatch) := tick c1Sched.1 1060 60

/-- The next event-loop tick one second later. -/
def c1Tick2 : Option (SchedState × List Dispatch) :=
  tick ((c1Tick1.getD (emptyState, [])).1) 1061 61

/-- An interval SCHEDULE message with infinite run_count and interval 60. -/
def c2Msg : Message := ⟨"q1", "", 60, samplePayload, ""⟩

/-- c2Msg scheduled into an empty catalog at monotonic 0, wall clock 1000. -/
def c2Sched : SchedState × List Dispatch :=
  handle_schedule id noCron 0 1000 emptyState c2Msg

/-- The first event-loop tick after c2Msg's deadline (monotonic 60). -/
def c2Tick : Option (SchedState × List Dispatch) := tick c2Sched.1 1060 60

/-- A cron SCHEDULE message on queue q1. -/
def c7Msg : Message := ⟨"q1", "", -1, samplePayload, "* * * * *"⟩

/-- c7Msg scheduled into an empty catalog at monotonic 0, wall clock 1000. -/
def c7Sched : SchedState × List Dispatch :=
  handle_schedule id sampleCronDb 0 1000 emptyState c7Msg

/-- The first event-loop tick at which c7Msg's cron entry is due. -/
def c7Tick : Option (SchedState × List Dispatch) := tick c7Sched.1 1020 60

/-- An interval SCHEDULE message with run_count 0. -/
def c10Msg : Message := ⟨"q1", "run_count:0", 60, samplePayload, ""⟩

/-- A job dict whose kwargs object lists key a before key b. -/
def c3Job1 : JVal := .jobj [("args", .jarr []),
  ("kwargs", .jobj [("a", .jnum 1), ("b", .jnum 2)]), ("class_args", .jarr []),
  ("class_kwargs", .jobj []), ("path", .jstr "p"), ("callable", .jstr "f")]

/-- The same job dict with the kwargs keys in the opposite order. -/
def c3Job2 : JVal := .jobj [("args", .jarr []),
  ("kwargs", .jobj [("b", .jnum 2), ("a", .jnum 1)]), ("class_args", .jarr []),
  ("class_kwargs", .jobj []), ("path", .jstr "p"), ("callable", .jstr "f")]

/-- A payload carrying c3Job1 at index 1. -/
def c3Pay1 : JVal := .jarr [.jstr "run", c3Job1]

/-- A payload carrying c3Job2 at index 1. -/
def c3Pay2 : JVal := .jarr [.jstr "run", c3Job2]

/-- An interval message built on c3Pay1. -/
def c3Msg1 : Message := ⟨"q1", "run_count:3", 60, c3Pay1, ""⟩

/-- A message with the same job identity but different queue, headers and
cadence (cron instead of interval). -/
def c3Msg2 : Message := ⟨"q2", "nohaste", -1, c3Pay2, "* * * * *"⟩

/-- An interval SCHEDULE message with run_count 3 and interval 60. -/
def c4Msg : Message := ⟨"q1", "run_count:3", 60, samplePayload, ""⟩

/-- The catalog right after scheduling c4Msg into an empty state. -/
def c4Direct : SchedState :=
  (handle_schedule id noCron 0 1000 emptyState c4Msg).1

/-- The catalog recovered by a restarted scheduler from c4Direct's store. -/
def c4Loaded : SchedState := load_jobs id noCron 5 2000 (restart c4Direct)

/-! ## General lemmas -/

theorem charsLe_total (a b : List Char) : charsLe a b = true ∨ charsLe b a = true := by
  induction a generalizing b with
  | nil => left; rfl
  | cons x xs ih =>
    cases b with
    | nil => right; rfl
    | cons y ys =>
      rcases lt_trichotomy x y with h | h | h
      · left; simp [charsLe, ne_of_lt h, h]
      · subst h
        simpa [charsLe] using ih ys
      · right; simp [charsLe, ne_of_lt h, h]

theorem charsLe_antisymm {a b : List Char} (h1 : charsLe a b = true)
    (h2 : charsLe b a = true) : a = b := by
  induction a generalizing b with
  | nil =>
    cases b with
    | nil => rfl
    | cons y ys => simp [charsLe] at h2
  | cons x xs ih =>
    cases b with
    | nil => simp [charsLe] at h1
    | cons y ys =>
      by_cases hxy : x = y
      · subst hxy
        simp only [charsLe, if_pos rfl] at h1 h2
        exact congrArg (x :: ·) (ih h1 h2)
      · have hyx : ¬ y = x := fun h => hxy h.symm
        simp only [charsLe, if_neg hxy, decide_eq_true_eq] at h1
        simp only [charsLe, if_neg hyx, decide_eq_true_eq] at h2
        exact absurd (lt_trans h1 h2) (lt_irrefl _)

theorem charsLe_trans {a b c : List Char} (h1 : charsLe a b = true)
    (h2 : charsLe b c = true) : charsLe a c = true := by
  induction a generalizing b c with
  | nil => rfl
  | cons x xs ih =>
    cases b with
    | nil => simp [charsLe] at h1
    | cons y ys =>
      cases c with
      | nil => simp [charsLe] at h2
      | cons z zs =>
        by_cases hxy : x = y <;> by_cases hyz : y = z
        · subst hxy; subst hyz
          simp only [charsLe, if_pos rfl] at h1 h2 ⊢
          exact ih h1 h2
        · subst hxy
          simp only [charsLe, if_pos rfl] at h1
          simpa [charsLe, hyz] using h2
        · subst hyz
          simpa [charsLe, hxy] using h1
        · simp only [charsLe, if_neg hxy, decide_eq_true_eq] at h1
          simp only [charsLe, if_neg hyz, decide_eq_true_eq] at h2
          have hxz : x < z := lt_trans h1 h2
          have hne : ¬ x = z := ne_of_lt hxz
          simp [charsLe, hne, hxz]

theorem string_toList_inj {a b : String} (h : a.toList = b.toList) : a = b := by
  cases a; cases b; exact congrArg String.mk h

instance : IsTotal String strLeP :=
  ⟨fun a b => charsLe_total a.toList b.toList⟩

instance : IsTrans String strLeP :=
  ⟨fun _ _ _ h1 h2 => charsLe_trans h1 h2⟩

instance : IsAntisymm String strLeP :=
  ⟨fun _ _ h1 h2 => string_toList_inj (charsLe_antisymm h1 h2)⟩

theorem insertionSort_eq_of_perm {l₁ l₂ : List String} (h : l₁.Perm l₂) :
    List.insertionSort strLeP l₁ = List.insertionSort strLeP l₂ := by
  refine List.eq_of_perm_of_sorted (r := strLeP) ?_ ?_ ?_
  · exact ((List.perm_insertionSort strLeP l₁).trans h).trans
      (List.perm_insertionSort strLeP l₂).symm
  · exact List.sorted_insertionSort strLeP l₁
  · exact List.sorted_insertionSort strLeP l₂

theorem renderEntriesJ_eq_map (xs : List (String × JVal)) :
    renderEntriesJ xs = xs.map (fun p => "\"" ++ escapeJ p.1 ++ "\": " ++ renderJ p.2) := by
  induction xs with
  | nil => rfl
  | cons x xs ih => cases x; simp [renderEntriesJ, ih]

mutual

/-- KeyPerm-related values have equal sorted-key serializations. -/
theorem renderJ_keyPerm {u v : JVal} (h : KeyPerm u v) : renderJ u = renderJ v :=
  match h with
  | .jnull => rfl
  | .jbool _ => rfl
  | .jnum _ => rfl
  | .jstr _ => rfl
  | .jarr hl => by
      simp only [renderJ]
      rw [renderListJ_keyPerm hl]
  | .jobj ho hperm => by
      simp only [renderJ]
      rw [renderEntriesJ_keyPerm ho, renderEntriesJ_eq_map,
        insertionSort_eq_of_perm (hperm.map (fun p => "\"" ++ escapeJ p.1 ++ "\": " ++ renderJ p.2))]

theorem renderListJ_keyPerm {xs ys : List JVal} (h : KeyPermL xs ys) :
    renderListJ xs = renderListJ ys :=
  match h with
  | .nil => rfl
  | .cons hx hxs => by
      simp only [renderListJ]
      rw [renderJ_keyPerm hx, renderListJ_keyPerm hxs]

theorem renderEntriesJ_keyPerm {xs ys : List (String × JVal)} (h : KeyPermO xs ys) :
    renderEntriesJ xs =
      ys.map (fun p => "\"" ++ escapeJ p.1 ++ "\": " ++ renderJ p.2) :=
  match h with
  | .nil => rfl
  | .cons hv hxs => by
      simp only [renderEntriesJ, List.map]
      rw [renderJ_keyPerm hv, renderEntriesJ_keyPerm hxs]

end

theorem alookup_aset {α : Type} (l : List (String × α)) (k : String) (v : α)
    (h : String) : alookup (aset l k v) h = if k = h then some v else alookup l h := by
  induction l with
  | nil => simp [aset, alookup]
  | cons p xs ih =>
    obtain ⟨a, w⟩ := p
    by_cases hak : a = k
    · subst hak
      by_cases hah : a = h <;> simp [aset, alookup, hah]
    · by_cases hah : a = h
      · subst hah
        have : ¬ k = a := fun hh => hak hh.symm
        simp [aset, alookup, hak, this]
      · simp [aset, alookup, hak, hah, ih]

theorem alookup_aerase_ne {α : Type} (l : List (String × α)) (k h : String)
    (hne : ¬ k = h) : alookup (aerase l k) h = alookup l h := by
  induction l with
  | nil => simp [aerase, alookup]
  | cons p xs ih =>
    obtain ⟨a, w⟩ := p
    by_cases hak : a = k
    · subst hak
      have : ¬ a = h := hne
      simp [aerase, alookup, this]
    · simp [aerase, alookup, hak, ih]

theorem mem_keys_of_alookup {α : Type} {l : List (String × α)} {h : String}
    (hl : (alookup l h).isSome = true) : h ∈ l.map Prod.fst := by
  induction l with
  | nil => simp [alookup] at hl
  | cons p xs ih =>
    obtain ⟨a, w⟩ := p
    by_cases hah : a = h
    · subst hah; simp
    · simp only [alookup, if_neg hah] at hl
      simpa using Or.inr (ih hl)

theorem alookup_eq_none_of_not_mem {α : Type} {l : List (String × α)} {h : String}
    (hm : h ∉ l.map Prod.fst) : alookup l h = none := by
  induction l with
  | nil => rfl
  | cons p xs ih =>
    obtain ⟨a, w⟩ := p
    simp only [List.map, List.mem_cons, not_or] at hm
    have : ¬ a = h := fun hh => hm.1 hh.symm
    simp [alookup, this, ih hm.2]

theorem alookup_aerase_self {α : Type} (l : List (String × α)) (k : String)
    (hnd : keysNodup l) : alookup (aerase l k) k = none := by
  induction l with
  | nil => rfl
  | cons p xs ih =>
    obtain ⟨a, w⟩ := p
    simp only [keysNodup, List.map, List.nodup_cons] at hnd
    by_cases hak : a = k
    · subst hak
      simp only [aerase, if_pos rfl]
      exact alookup_eq_none_of_not_mem hnd.1
    · simp [aerase, alookup, hak, ih hnd.2]

theorem aerase_of_not_found {α : Type} (l : List (String × α)) (k : String)
    (hl : alookup l k = none) : aerase l k = l := by
  induction l with
  | nil => rfl
  | cons p xs ih =>
    obtain ⟨a, w⟩ := p
    by_cases hak : a = k
    · subst hak; simp [alookup] at hl
    · simp only [alookup, if_neg hak] at hl
      simp [aerase, hak, ih hl]

theorem alookup_amodify {α : Type} (l : List (String × α)) (k : String)
    (f : α → α) (h : String) :
    alookup (amodify l k f) h =
      if k = h then (alookup l k).map f else alookup l h := by
  induction l with
  | nil => simp [amodify, alookup]
  | cons p xs ih =>
    obtain ⟨a, w⟩ := p
    by_cases hak : a = k
    · subst hak
      by_cases hah : a = h <;> simp [amodify, alookup, hah]
    · by_cases hah : a = h
      · subst hah
        have : ¬ k = a := fun hh => hak hh.symm
        simp [amodify, alookup, hak, this]
      · simp [amodify, alookup, hak, hah, ih]

theorem mem_keys_aset {α : Type} (l : List (String × α)) (k : String) (v : α)
    (h : String) : h ∈ (aset l k v).map Prod.fst ↔ h = k ∨ h ∈ l.map Prod.fst := by
  induction l with
  | nil => simp [aset]
  | cons p xs ih =>
    obtain ⟨a, w⟩ := p
    by_cases hak : a = k
    · subst hak; by_cases hah : h = a <;> simp [aset, hah]
    · simp [aset, hak, ih, or_left_comm]

theorem keysNodup_aset {α : Type} (l : List (String × α)) (k : String) (v : α)
    (hnd : keysNodup l) : keysNodup (aset l k v) := by
  induction l with
  | nil => simp [keysNodup, aset]
  | cons p xs ih =>
    obtain ⟨a, w⟩ := p
    simp only [keysNodup, List.map_cons, List.nodup_cons] at hnd
    by_cases hak : a = k
    · subst hak
      simp only [aset, eq_self_iff_true, if_true, keysNodup, List.map_cons,
        List.nodup_cons]
      exact hnd
    · have h2 := ih hnd.2
      have h1 : a ∉ (aset xs k v).map Prod.fst := by
        rw [mem_keys_aset]
        push_neg
        exact ⟨hak, hnd.1⟩
      simp only [aset, if_neg hak, keysNodup, List.map_cons, List.nodup_cons]
      exact ⟨h1, h2⟩

theorem keys_aerase_sublist {α : Type} (l : List (String × α)) (k : String) :
    List.Sublist ((aerase l k).map Prod.fst) (l.map Prod.fst) := by
  induction l with
  | nil => simp [aerase]
  | cons p xs ih =>
    obtain ⟨a, w⟩ := p
    by_cases hak : a = k
    · subst hak
      simp only [aerase, eq_self_iff_true, if_true, List.map_cons]
      exact List.sublist_cons_self _ _
    · simpa [aerase, hak] using ih.cons₂ a

theorem keysNodup_aerase {α : Type} (l : List (String × α)) (k : String)
    (hnd : keysNodup l) : keysNodup (aerase l k) :=
  List.Nodup.sublist (keys_aerase_sublist l k) hnd

theorem keys_amodify {α : Type} (l : List (String × α)) (k : String) (f : α → α) :
    (amodify l k f).map Prod.fst = l.map Prod.fst := by
  induction l with
  | nil => rfl
  | cons p xs ih =>
    obtain ⟨a, w⟩ := p
    by_cases hak : a = k <;> simp [amodify, hak, ih]

theorem keysNodup_amodify {α : Type} (l : List (String × α)) (k : String)
    (f : α → α) (hnd : keysNodup l) : keysNodup (amodify l k f) := by
  simpa [keysNodup, keys_amodify] using hnd

/-! ## Characterizations of the handlers -/

theorem on_schedule_interval_spec (digest : String → String)
    (cronDb : String → Option (Nat → Int)) (mono ts : Int) (s : SchedState)
    (m : Message) (rc : Int) (h : String)
    (hrc : get_run_count_from_headers m.headers = some rc)
    (hh : schedule_hash digest m = some h)
    (hint : m.interval ≥ 0) :
    on_schedule digest cronDb mono ts s m = some (
      let st0 : SchedState :=
        { interval_jobs := aset s.interval_jobs h
            ⟨(IntervalIter.next ⟨mono, m.interval, 0⟩).1, m.payload,
              (IntervalIter.next ⟨mono, m.interval, 0⟩).2, m.queue, rc⟩,
          cron_jobs := if amem s.cron_jobs h then aerase s.cron_jobs h
            else s.cron_jobs,
          store_kv := aset s.store_kv h m,
          store_list := if h ∈ s.store_list then s.store_list
            else h :: s.store_list }
      if pyIn "nohaste" m.headers then (st0, [])
      else if rc > 0 ∨ rc = -1 then
        (if rc > 0 then
          { st0 with interval_jobs :=
              (amodify st0.interval_jobs h
                (fun e => { e with run_count := e.run_count - 1 })) }
        else st0, [⟨m.payload, some m.queue⟩])
      else (st0, [])) := by
  unfold on_schedule
  rw [hrc, hh]
  have hd : decide (m.interval ≥ 0) = true := decide_eq_true hint
  simp only [Option.bind_eq_bind, Option.some_bind, hd, if_true, Bool.true_eq,
    and_true, ite_true]
  split_ifs <;> rfl

theorem on_schedule_cron_spec (digest : String → String)
    (cronDb : String → Option (Nat → Int)) (mono ts : Int) (s : SchedState)
    (m : Message) (rc : Int) (h : String) (f : Nat → Int)
    (hrc : get_run_count_from_headers m.headers = some rc)
    (hh : schedule_hash digest m = some h)
    (hint : m.interval < 0)
    (hf : cronDb m.cron = some f) :
    on_schedule digest cronDb mono ts s m = some (
      let st0 : SchedState :=
        { interval_jobs := if amem s.interval_jobs h then aerase s.interval_jobs h
            else s.interval_jobs,
          cron_jobs := aset s.cron_jobs h
            (if ts ≥ f 0 then ⟨f 1, m.payload, ⟨m.cron, 2⟩, none⟩
             else ⟨f 0, m.payload, ⟨m.cron, 1⟩, none⟩),
          store_kv := aset s.store_kv h m,
          store_list := if h ∈ s.store_list then s.store_list
            else h :: s.store_list }
      if pyIn "nohaste" m.headers then (st0, [])
      else if rc > 0 ∨ rc = -1 then (st0, [⟨m.payload, some m.queue⟩])
      else (st0, [])) := by
  unfold on_schedule
  rw [hrc, hh]
  have hd : decide (m.interval ≥ 0) = false := decide_eq_false (not_le.mpr hint)
  simp only [Option.bind_eq_bind, Option.some_bind, hd, Bool.false_eq_true,
    if_false, hf, and_false, ite_false, false_and]
  split_ifs <;> rfl

theorem unschedule_job_spec (digest : String → String) (s : SchedState)
    (m : Message) (h : String)
    (hh : schedule_hash digest m = some h) :
    unschedule_job digest s m = some (
      let s1 : SchedState :=
        if amem s.interval_jobs h then
          { s with interval_jobs := aerase s.interval_jobs h }
        else if amem s.cron_jobs h then
          { s with cron_jobs := aerase s.cron_jobs h }
        else s
      if (alookup s1.store_kv h).isSome then
        { s1 with store_kv := aerase s1.store_kv h,
                  store_list := s1.store_list.filter
                    (fun x => if x = h then false else true) }
      else s1) := by
  unfold unschedule_job
  rw [hh]
  simp only [Option.bind_eq_bind, Option.some_bind]

/-! ## Claim theorems -/

/-- C1: the claim fails on the code.  Scheduling an interval job with a
finite run_count of 2 (nohaste absent) emits the haste dispatch, and then
the event loop dispatches the job again on every tick at which its stored
deadline has passed: after two such ticks three dispatches have been
emitted, the in-memory run_count is still 1 and the entry has not been
removed, because the loop never writes the advanced deadline or the
decremented run_count back into the entry. -/
theorem c1_run_count_not_enforced :
    c1Sched.2.length = 1 ∧
    (c1Tick1.map (fun p => p.2.length)) = some 1 ∧
    (c1Tick2.map (fun p => p.2.length)) = some 1 ∧
    (c1Tick2.map (fun p => p.1.interval_jobs.map (fun q => q.2.run_count)))
      = some [1] ∧
    (c1Tick2.map (fun p => p.1.interval_jobs.map (fun q => q.2.next_mono)))
      = some [60] :=
  ⟨rfl, rfl, rfl, rfl, rfl⟩

/-- C2: the claim fails on the code.  An infinite interval entry scheduled
with deadline 60 is dispatched by the tick at monotonic 60, yet its stored
slot-0 deadline is still 60 afterwards: the advanced value produced by the
iterator is bound to a local variable and never stored, so the deadline
does not strictly increase and the entry is due again immediately. -/
theorem c2_deadline_never_advances :
    c2Sched.1.interval_jobs.map (fun q => q.2.next_mono) = [60] ∧
    (c2Tick.map (fun p => p.2.length)) = some 1 ∧
    (c2Tick.map (fun p => p.1.interval_jobs.map (fun q => q.2.next_mono)))
      = some [60] :=
  ⟨rfl, rfl, rfl⟩

/-- C4: counterexample.  Scheduling an interval job with run_count 3 and
nohaste absent leaves an in-memory entry with run_count 2 (decremented by
the haste dispatch), but the store keeps the original headers, so the
recovery load rebuilds the entry with run_count 3: the round-tripped entry
differs from the direct one. -/
theorem c4_roundtrip_counterexample :
    (c4Direct.interval_jobs.map (fun q => q.2.run_count)) = [2] ∧
    (c4Loaded.interval_jobs.map (fun q => q.2.run_count)) = [3] :=
  ⟨rfl, rfl⟩

/-- C7: counterexample.  A cron SCHEDULE on queue q1 installs a cron entry
whose queue slot is None, not the message's queue, and the dispatch of that
entry is forwarded with no queue tag. -/
theorem c7_cron_queue_counterexample :
    c7Msg.queue = "q1" ∧
    c7Sched.1.cron_jobs.map (fun q => q.2.queue) = [none] ∧
    (c7Tick.map (fun p => p.2.map (fun d => d.queue))) = some [none] :=
  ⟨rfl, rfl, rfl⟩

/-- C10: an interval SCHEDULE whose headers give a finite non-negative
run_count that is zero or less (and in particular zero) and do not contain
nohaste emits no haste dispatch at all, and the installed entry's run_count
is exactly the header value, never decremented below zero: the haste
decrement applies only when the run_count is strictly positive. -/
theorem c10_run_count_zero_no_haste (digest : String → String)
    (cronDb : String → Option (Nat → Int)) (mono ts : Int) (s : SchedState)
    (m : Message) (k : Int) (h : String)
    (hrc : get_run_count_from_headers m.headers = some k)
    (hh : schedule_hash digest m = some h)
    (hint : m.interval ≥ 0)
    (hnh : pyIn "nohaste" m.headers = false)
    (hk : k ≤ 0) (hkinf : k ≠ -1) :
    ∃ st, on_schedule digest cronDb mono ts s m = some (st, []) ∧
      ∃ e, alookup st.interval_jobs h = some e ∧ e.run_count = k := by
  rw [on_schedule_interval_spec digest cronDb mono ts s m k h hrc hh hint]
  have hno : ¬ (k > 0 ∨ k = -1) := by
    push_neg
    exact ⟨hk, hkinf⟩
  simp only [hnh, Bool.false_eq_true, if_false, hno, ite_false]
  refine ⟨_, rfl, ?_⟩
  refine ⟨⟨(IntervalIter.next ⟨mono, m.interval, 0⟩).1, m.payload,
    (IntervalIter.next ⟨mono, m.interval, 0⟩).2, m.queue, k⟩, ?_, rfl⟩
  rw [alookup_aset]
  simp

/-- C10 witness: scheduling c10Msg (headers run_count:0, nohaste absent)
emits no dispatch and installs the entry with run_count 0. -/
theorem c10_run_count_zero_no_haste_witness :
    ∃ st, on_schedule id noCron 0 1000 emptyState c10Msg = some (st, []) ∧
      ∃ e, alookup st.interval_jobs ((schedule_hash id c10Msg).getD "")
        = some e ∧ e.run_count = 0 :=
  c10_run_count_zero_no_haste id noCron 0 1000 emptyState c10Msg 0
    ((schedule_hash id c10Msg).getD "") rfl rfl (by decide) rfl
    (by decide) (by decide)

/-- C6: a SCHEDULE whose interval is negative and whose cron expression does
not parse (in particular the empty expression) raises inside the handler
before any catalog mutation, and the service shell logs and drops it: the
state is unchanged and nothing is dispatched.  On the recovery path, a
loaded message with interval -1 and an empty cron expression falls through
both branches and installs nothing. -/
theorem c6_malformed_schedule_dropped (digest : String → String)
    (cronDb : String → Option (Nat → Int)) (mono ts : Int) (s : SchedState)
    (m : Message)
    (hint : m.interval < 0)
    (hcron : cronDb m.cron = none) :
    handle_schedule digest cronDb mono ts s m = (s, []) ∧
    ((schedule_hash digest m).isSome = true → m.interval = -1 → m.cron = "" →
      load_job_from_redis digest cronDb mono ts s m = some s) := by
  constructor
  · unfold handle_schedule on_schedule
    have hd : decide (m.interval ≥ 0) = false := decide_eq_false (not_le.mpr hint)
    cases hrc : get_run_count_from_headers m.headers with
    | none => simp [hrc]
    | some rc =>
      cases hh : schedule_hash digest m with
      | none => simp [hrc, hh]
      | some h => simp [hrc, hh, hd, hcron]
  · intro hhs hm1 hc
    obtain ⟨h, hh⟩ := Option.isSome_iff_exists.mp hhs
    unfold load_job_from_redis
    have hd : ¬ (m.interval ≥ 0) := not_le.mpr hint
    simp [hh, hm1, hc, hd]

/-- C6 witness: a SCHEDULE with interval -1 and empty cron expression is
dropped without changing the empty catalog, and the recovery load of the
same message installs nothing. -/
theorem c6_malformed_schedule_dropped_witness :
    handle_schedule id noCron 0 1000 emptyState ⟨"q1", "", -1, samplePayload, ""⟩
      = (emptyState, []) ∧
    ((schedule_hash id ⟨"q1", "", -1, samplePayload, ""⟩).isSome = true →
      (-1 : Int) = -1 → ("" : String) = "" →
      load_job_from_redis id noCron 0 1000 emptyState
        ⟨"q1", "", -1, samplePayload, ""⟩ = some emptyState) :=
  c6_malformed_schedule_dropped id noCron 0 1000 emptyState
    ⟨"q1", "", -1, samplePayload, ""⟩ (by decide) rfl

/-- C8: when the cron iterator's first value is already at or before the
wall clock, both install paths advance the iterator exactly one additional
step (two next() calls made, deadline from the second value) before storing
the deadline; consequently, for a strictly increasing iterator whose first
value equals the wall clock, the installed entry is not due on the current
tick's cron sweep. -/
theorem c8_skip_past_rule (digest : String → String)
    (cronDb : String → Option (Nat → Int)) (mono ts : Int) (s : SchedState)
    (m : Message) (rc : Int) (h : String) (f : Nat → Int)
    (hrc : get_run_count_from_headers m.headers = some rc)
    (hh : schedule_hash digest m = some h)
    (hint : m.interval < 0)
    (hf : cronDb m.cron = some f)
    (hpast : f 0 ≤ ts) :
    (∃ st ds e, on_schedule digest cronDb mono ts s m = some (st, ds) ∧
       alookup st.cron_jobs h = some e ∧ e.next_wall = f 1 ∧ e.iter.pos = 2 ∧
       (StrictMono f → f 0 = ts → (cronSweepGo ts [(h, e)]).2 = [])) ∧
    (m.interval = -1 → m.cron ≠ "" →
       ∃ st e, load_job_from_redis digest cronDb mono ts s m = some st ∧
         alookup st.cron_jobs h = some e ∧ e.next_wall = f 1 ∧ e.iter.pos = 2) := by
  have hts : ts ≥ f 0 := hpast
  constructor
  · have key : ∃ st ds, on_schedule digest cronDb mono ts s m = some (st, ds) ∧
        st.cron_jobs = aset s.cron_jobs h
          (if ts ≥ f 0 then ⟨f 1, m.payload, ⟨m.cron, 2⟩, none⟩
           else ⟨f 0, m.payload, ⟨m.cron, 1⟩, none⟩) := by
      rw [on_schedule_cron_spec digest cronDb mono ts s m rc h f hrc hh hint hf]
      split_ifs <;> exact ⟨_, _, rfl, rfl⟩
    obtain ⟨st, ds, hrun, hcj⟩ := key
    rw [if_pos hts] at hcj
    refine ⟨st, ds, ⟨f 1, m.payload, ⟨m.cron, 2⟩, none⟩, hrun, ?_, rfl, rfl, ?_⟩
    · rw [hcj, alookup_aset]
      simp
    · intro hmono heq
      have hgt : ts < f 1 := by
        have h01 : f 0 < f 1 := hmono (Nat.lt_succ_self 0)
        omega
      simp [cronSweepGo, not_le.mpr hgt]
  · intro hm1 hne
    have hd : ¬ (m.interval ≥ 0) := not_le.mpr hint
    have heq : load_job_from_redis digest cronDb mono ts s m =
        some { s with cron_jobs :=
          (aset s.cron_jobs h ⟨f 1, m.payload, ⟨m.cron, 2⟩, some m.queue⟩) } := by
      unfold load_job_from_redis
      rw [hh]
      simp [hm1, hd, hne, hf, hts]
    refine ⟨_, ⟨f 1, m.payload, ⟨m.cron, 2⟩, some m.queue⟩, heq, ?_, rfl, rfl⟩
    rw [alookup_aset]
    simp

/-- C8 witness: a cron SCHEDULE at wall clock 1020, when the iterator's
first value is exactly 1020, installs deadline 1080 with the iterator two
steps in, and the entry does not fire on the tick at 1020. -/
theorem c8_skip_past_rule_witness :
    (∃ st ds e, on_schedule id sampleCronDb 0 1020 emptyState c7Msg
        = some (st, ds) ∧
      alookup st.cron_jobs ((schedule_hash id c7Msg).getD "") = some e ∧
      e.next_wall = (fun n : Nat => 1020 + 60 * (n : Int)) 1 ∧ e.iter.pos = 2 ∧
      (StrictMono (fun n : Nat => 1020 + 60 * (n : Int)) →
        (fun n : Nat => 1020 + 60 * (n : Int)) 0 = 1020 →
        (cronSweepGo 1020 [(((schedule_hash id c7Msg).getD ""), e)]).2 = [])) ∧
    (c7Msg.interval = -1 → c7Msg.cron ≠ "" →
      ∃ st e, load_job_from_redis id sampleCronDb 0 1020 emptyState c7Msg
          = some st ∧
        alookup st.cron_jobs ((schedule_hash id c7Msg).getD "") = some e ∧
        e.next_wall = (fun n : Nat => 1020 + 60 * (n : Int)) 1 ∧
        e.iter.pos = 2) :=
  c8_skip_past_rule id sampleCronDb 0 1020 emptyState c7Msg (-1)
    ((schedule_hash id c7Msg).getD "") (fun n : Nat => 1020 + 60 * (n : Int))
    rfl rfl (by decide) rfl (by decide)

/-- C7 amended: a cron entry installed by SCHEDULE records None as its
dispatch queue (slot 3), so the event loop forwards its payload with no
queue tag; only entries rebuilt by the recovery load record the message's
queue. -/
theorem c7_cron_queue_amended (digest : String → String)
    (cronDb : String → Option (Nat → Int)) (mono ts ts2 : Int) (s : SchedState)
    (m : Message) (rc : Int) (h : String) (f : Nat → Int)
    (hrc : get_run_count_from_headers m.headers = some rc)
    (hh : schedule_hash digest m = some h)
    (hint : m.interval < 0)
    (hf : cronDb m.cron = some f) :
    (∃ st ds e, on_schedule digest cronDb mono ts s m = some (st, ds) ∧
       alookup st.cron_jobs h = some e ∧ e.queue = none ∧
       e.payload = m.payload ∧
       (e.next_wall ≤ ts2 →
         (cronSweepGo ts2 [(h, e)]).2 = [⟨m.payload, none⟩])) ∧
    (m.interval = -1 → m.cron ≠ "" →
       ∃ st e, load_job_from_redis digest cronDb mono ts s m = some st ∧
         alookup st.cron_jobs h = some e ∧ e.queue = some m.queue) := by
  constructor
  · have key : ∃ st ds, on_schedule digest cronDb mono ts s m = some (st, ds) ∧
        st.cron_jobs = aset s.cron_jobs h
          (if ts ≥ f 0 then ⟨f 1, m.payload, ⟨m.cron, 2⟩, none⟩
           else ⟨f 0, m.payload, ⟨m.cron, 1⟩, none⟩) := by
      rw [on_schedule_cron_spec digest cronDb mono ts s m rc h f hrc hh hint hf]
      split_ifs <;> exact ⟨_, _, rfl, rfl⟩
    obtain ⟨st, ds, hrun, hcj⟩ := key
    by_cases hts : ts ≥ f 0
    · rw [if_pos hts] at hcj
      refine ⟨st, ds, ⟨f 1, m.payload, ⟨m.cron, 2⟩, none⟩, hrun, ?_, rfl, rfl, ?_⟩
      · rw [hcj, alookup_aset]
        simp
      · intro hdue
        simp [cronSweepGo, hdue]
    · rw [if_neg hts] at hcj
      refine ⟨st, ds, ⟨f 0, m.payload, ⟨m.cron, 1⟩, none⟩, hrun, ?_, rfl, rfl, ?_⟩
      · rw [hcj, alookup_aset]
        simp
      · intro hdue
        simp [cronSweepGo, hdue]
  · intro hm1 hne
    have hd : ¬ (m.interval ≥ 0) := not_le.mpr hint
    by_cases hts : ts ≥ f 0
    · have heq : load_job_from_redis digest cronDb mono ts s m =
          some { s with cron_jobs :=
            (aset s.cron_jobs h ⟨f 1, m.payload, ⟨m.cron, 2⟩, some m.queue⟩) } := by
        unfold load_job_from_redis
        rw [hh]
        simp [hm1, hd, hne, hf, hts]
      refine ⟨_, ⟨f 1, m.payload, ⟨m.cron, 2⟩, some m.queue⟩, heq, ?_, rfl⟩
      rw [alookup_aset]
      simp
    · have heq : load_job_from_redis digest cronDb mono ts s m =
          some { s with cron_jobs :=
            (aset s.cron_jobs h ⟨f 0, m.payload, ⟨m.cron, 1⟩, some m.queue⟩) } := by
        unfold load_job_from_redis
        rw [hh]
        simp [hm1, hd, hne, hf, hts]
      refine ⟨_, ⟨f 0, m.payload, ⟨m.cron, 1⟩, some m.queue⟩, heq, ?_, rfl⟩
      rw [alookup_aset]
      simp

/-- C7 amended witness: scheduling c7Msg installs a cron entry with queue
None whose due dispatch is untagged, and the recovery load of the same
message records queue q1. -/
theorem c7_cron_queue_amended_witness :
    (∃ st ds e, on_schedule id sampleCronDb 0 1000 emptyState c7Msg
        = some (st, ds) ∧
      alookup st.cron_jobs ((schedule_hash id c7Msg).getD "") = some e ∧
      e.queue = none ∧ e.payload = c7Msg.payload ∧
      (e.next_wall ≤ 1020 →
        (cronSweepGo 1020 [(((schedule_hash id c7Msg).getD ""), e)]).2
          = [⟨c7Msg.payload, none⟩])) ∧
    (c7Msg.interval = -1 → c7Msg.cron ≠ "" →
      ∃ st e, load_job_from_redis id sampleCronDb 0 1000 emptyState c7Msg
          = some st ∧
        alookup st.cron_jobs ((schedule_hash id c7Msg).getD "") = some e ∧
        e.queue = some c7Msg.queue) :=
  c7_cron_queue_amended id sampleCronDb 0 1000 1020 emptyState c7Msg (-1)
    ((schedule_hash id c7Msg).getD "") (fun n : Nat => 1020 + 60 * (n : Int))
    rfl rfl (by decide) rfl

/-- C4 amended: persisting a valid SCHEDULE and loading it back yields an
entry in the same map with the same payload, but not an identical entry: for
interval jobs the queue is preserved and the loaded run_count equals the
header value rc, while the direct entry's run_count is rc minus one exactly
when a haste dispatch decremented it (nohaste absent and rc positive); for
cron jobs the loaded entry records the message's queue whereas the direct
entry stores None. -/
theorem c4_roundtrip_amended (digest : String → String)
    (cronDb : String → Option (Nat → Int)) (mono1 ts1 mono2 ts2 : Int)
    (m : Message) (rc : Int) (h : String)
    (hrc : get_run_count_from_headers m.headers = some rc)
    (hh : schedule_hash digest m = some h) :
    (m.interval ≥ 0 →
      ∃ st ds e e2,
        on_schedule digest cronDb mono1 ts1 emptyState m = some (st, ds) ∧
        alookup st.interval_jobs h = some e ∧ st.cron_jobs = [] ∧
        alookup (load_jobs digest cronDb mono2 ts2 (restart st)).interval_jobs h
          = some e2 ∧
        (load_jobs digest cronDb mono2 ts2 (restart st)).cron_jobs = [] ∧
        e.payload = m.payload ∧ e2.payload = m.payload ∧
        e.queue = m.queue ∧ e2.queue = m.queue ∧
        e2.run_count = rc ∧
        e.run_count = rc -
          (if pyIn "nohaste" m.headers = false ∧ rc > 0 then 1 else 0)) ∧
    (∀ f, m.interval = -1 → m.cron ≠ "" → cronDb m.cron = some f →
      ∃ st ds e e2,
        on_schedule digest cronDb mono1 ts1 emptyState m = some (st, ds) ∧
        alookup st.cron_jobs h = some e ∧ st.interval_jobs = [] ∧
        alookup (load_jobs digest cronDb mono2 ts2 (restart st)).cron_jobs h
          = some e2 ∧
        (load_jobs digest cronDb mono2 ts2 (restart st)).interval_jobs = [] ∧
        e.payload = m.payload ∧ e2.payload = m.payload ∧
        e.queue = none ∧ e2.queue = some m.queue) := by
  constructor
  · intro hint
    have key : ∃ ds, on_schedule digest cronDb mono1 ts1 emptyState m =
        some (⟨[(h, ⟨(IntervalIter.next ⟨mono1, m.interval, 0⟩).1, m.payload,
                (IntervalIter.next ⟨mono1, m.interval, 0⟩).2, m.queue,
                rc - (if pyIn "nohaste" m.headers = false ∧ rc > 0
                  then 1 else 0)⟩)],
              [], [(h, m)], [h]⟩, ds) := by
      rw [on_schedule_interval_spec digest cronDb mono1 ts1 emptyState m rc h
        hrc hh hint]
      by_cases hnh : pyIn "nohaste" m.headers = true
      · refine ⟨[], ?_⟩
        simp [hnh, emptyState, amem, alookup, aset]
      · have hnh2 : pyIn "nohaste" m.headers = false := by
          simpa using hnh
        by_cases hr : rc > 0
        · refine ⟨[⟨m.payload, some m.queue⟩], ?_⟩
          simp [hnh2, emptyState, amem, alookup, aset, amodify, hr]
        · by_cases hi : rc = -1
          · refine ⟨[⟨m.payload, some m.queue⟩], ?_⟩
            simp [hnh2, emptyState, amem, alookup, aset, hr, hi]
          · refine ⟨[], ?_⟩
            have hno : ¬ (rc > 0 ∨ rc = -1) := by
              push_neg
              exact ⟨not_lt.mp hr, hi⟩
            simp [hnh2, emptyState, amem, alookup, aset, hno, hr, hi]
    obtain ⟨ds, hrun⟩ := key
    have hlj : load_job_from_redis digest cronDb mono2 ts2
        ⟨[], [], [(h, m)], [h]⟩ m
        = some ⟨[(h, ⟨(IntervalIter.next ⟨mono2, m.interval, 0⟩).1, m.payload,
            (IntervalIter.next ⟨mono2, m.interval, 0⟩).2, m.queue, rc⟩)], [],
            [(h, m)], [h]⟩ := by
      unfold load_job_from_redis
      rw [hh]
      simp [hint, hrc, aset]
    have hload : load_jobs digest cronDb mono2 ts2
        (restart ⟨[(h, ⟨(IntervalIter.next ⟨mono1, m.interval, 0⟩).1, m.payload,
            (IntervalIter.next ⟨mono1, m.interval, 0⟩).2, m.queue,
            rc - (if pyIn "nohaste" m.headers = false ∧ rc > 0
              then 1 else 0)⟩)], [], [(h, m)], [h]⟩)
        = ⟨[(h, ⟨(IntervalIter.next ⟨mono2, m.interval, 0⟩).1, m.payload,
            (IntervalIter.next ⟨mono2, m.interval, 0⟩).2, m.queue, rc⟩)], [],
            [(h, m)], [h]⟩ := by
      simp [restart, load_jobs, load_jobs_go, alookup, hlj]
    refine ⟨_, ds,
      ⟨(IntervalIter.next ⟨mono1, m.interval, 0⟩).1, m.payload,
        (IntervalIter.next ⟨mono1, m.interval, 0⟩).2, m.queue,
        rc - (if pyIn "nohaste" m.headers = false ∧ rc > 0 then 1 else 0)⟩,
      ⟨(IntervalIter.next ⟨mono2, m.interval, 0⟩).1, m.payload,
        (IntervalIter.next ⟨mono2, m.interval, 0⟩).2, m.queue, rc⟩,
      hrun, ?_, rfl, ?_, ?_, rfl, rfl, rfl, rfl, rfl, rfl⟩
    · simp [alookup]
    · rw [hload]
      simp [alookup]
    · rw [hload]
  · intro f hm1 hne hf
    have hint : m.interval < 0 := by rw [hm1]; decide
    have key : ∃ ds, on_schedule digest cronDb mono1 ts1 emptyState m =
        some (⟨[], [(h, (if ts1 ≥ f 0
                then ⟨f 1, m.payload, ⟨m.cron, 2⟩, none⟩
                else (⟨f 0, m.payload, ⟨m.cron, 1⟩, none⟩ : CronEntry)))],
              [(h, m)], [h]⟩, ds) := by
      rw [on_schedule_cron_spec digest cronDb mono1 ts1 emptyState m rc h f
        hrc hh hint hf]
      by_cases hnh : pyIn "nohaste" m.headers = true
      · refine ⟨[], ?_⟩
        simp [hnh, emptyState, amem, alookup, aset]
      · have hnh2 : pyIn "nohaste" m.headers = false := by
          simpa using hnh
        by_cases hro : rc > 0 ∨ rc = -1
        · refine ⟨[⟨m.payload, some m.queue⟩], ?_⟩
          simp [hnh2, emptyState, amem, alookup, aset, hro]
        · refine ⟨[], ?_⟩
          simp [hnh2, emptyState, amem, alookup, aset, hro]
    obtain ⟨ds, hrun⟩ := key
    have hlj : load_job_from_redis digest cronDb mono2 ts2
        ⟨[], [], [(h, m)], [h]⟩ m
        = some ⟨[], [(h, (if ts2 ≥ f 0
            then ⟨f 1, m.payload, ⟨m.cron, 2⟩, some m.queue⟩
            else (⟨f 0, m.payload, ⟨m.cron, 1⟩, some m.queue⟩ : CronEntry)))],
            [(h, m)], [h]⟩ := by
      unfold load_job_from_redis
      rw [hh]
      have hd : ¬ (m.interval ≥ 0) := not_le.mpr hint
      by_cases hts : ts2 ≥ f 0
      · simp [hm1, hd, hne, hf, hts, aset]
      · simp [hm1, hd, hne, hf, hts, aset]
    have hload : load_jobs digest cronDb mono2 ts2
        (restart ⟨[], [(h, (if ts1 ≥ f 0
            then ⟨f 1, m.payload, ⟨m.cron, 2⟩, none⟩
            else (⟨f 0, m.payload, ⟨m.cron, 1⟩, none⟩ : CronEntry)))],
            [(h, m)], [h]⟩)
        = ⟨[], [(h, (if ts2 ≥ f 0
            then ⟨f 1, m.payload, ⟨m.cron, 2⟩, some m.queue⟩
            else (⟨f 0, m.payload, ⟨m.cron, 1⟩, some m.queue⟩ : CronEntry)))],
            [(h, m)], [h]⟩ := by
      simp [restart, load_jobs, load_jobs_go, alookup, hlj]
    refine ⟨_, ds,
      (if ts1 ≥ f 0 then ⟨f 1, m.payload, ⟨m.cron, 2⟩, none⟩
        else (⟨f 0, m.payload, ⟨m.cron, 1⟩, none⟩ : CronEntry)),
      (if ts2 ≥ f 0 then ⟨f 1, m.payload, ⟨m.cron, 2⟩, some m.queue⟩
        else (⟨f 0, m.payload, ⟨m.cron, 1⟩, some m.queue⟩ : CronEntry)),
      hrun, ?_, rfl, ?_, ?_, ?_, ?_, ?_, ?_⟩
    · simp [alookup]
    · rw [hload]
      simp [alookup]
    · rw [hload]
    · by_cases hts : ts1 ≥ f 0 <;> simp [hts]
    · by_cases hts : ts2 ≥ f 0 <;> simp [hts]
    · by_cases hts : ts1 ≥ f 0 <;> simp [hts]
    · by_cases hts : ts2 ≥ f 0 <;> simp [hts]

/-- C4 amended witness: the run_count:3 interval message round-trips into
the interval map with payload and queue preserved, direct run_count 2 and
loaded run_count 3; the cron clause is vacuous for this message. -/
theorem c4_roundtrip_amended_witness :
    (c4Msg.interval ≥ 0 →
      ∃ st ds e e2,
        on_schedule id noCron 0 1000 emptyState c4Msg = some (st, ds) ∧
        alookup st.interval_jobs ((schedule_hash id c4Msg).getD "") = some e ∧
        st.cron_jobs = [] ∧
        alookup (load_jobs id noCron 5 2000 (restart st)).interval_jobs
          ((schedule_hash id c4Msg).getD "") = some e2 ∧
        (load_jobs id noCron 5 2000 (restart st)).cron_jobs = [] ∧
        e.payload = c4Msg.payload ∧ e2.payload = c4Msg.payload ∧
        e.queue = c4Msg.queue ∧ e2.queue = c4Msg.queue ∧
        e2.run_count = 3 ∧
        e.run_count = 3 -
          (if pyIn "nohaste" c4Msg.headers = false ∧ (3 : Int) > 0
            then 1 else 0)) ∧
    (∀ f, c4Msg.interval = -1 → c4Msg.cron ≠ "" → noCron c4Msg.cron = some f →
      ∃ st ds e e2,
        on_schedule id noCron 0 1000 emptyState c4Msg = some (st, ds) ∧
        alookup st.cron_jobs ((schedule_hash id c4Msg).getD "") = some e ∧
        st.interval_jobs = [] ∧
        alookup (load_jobs id noCron 5 2000 (restart st)).cron_jobs
          ((schedule_hash id c4Msg).getD "") = some e2 ∧
        (load_jobs id noCron 5 2000 (restart st)).interval_jobs = [] ∧
        e.payload = c4Msg.payload ∧ e2.payload = c4Msg.payload ∧
        e.queue = none ∧ e2.queue = some c4Msg.queue) :=
  c4_roundtrip_amended id noCron 0 1000 5 2000 c4Msg 3
    ((schedule_hash id c4Msg).getD "") rfl rfl

/-! ## Membership lemmas and handler inversion -/

theorem alookup_isSome_of_mem_keys {α : Type} {l : List (String × α)}
    {h : String} (hm : h ∈ l.map Prod.fst) : (alookup l h).isSome = true := by
  induction l with
  | nil => simp at hm
  | cons p xs ih =>
    obtain ⟨a, w⟩ := p
    by_cases hah : a = h
    · simp [alookup, hah]
    · simp only [List.map_cons, List.mem_cons] at hm
      rcases hm with hm | hm
      · exact absurd hm.symm hah
      · simpa [alookup, hah] using ih hm

theorem amem_aset_iff {α : Type} (l : List (String × α)) (k : String) (v : α)
    (h : String) : amem (aset l k v) h = true ↔ h = k ∨ amem l h = true := by
  unfold amem
  constructor
  · intro hm
    rcases (mem_keys_aset l k v h).mp (mem_keys_of_alookup hm) with hk | hk
    · exact Or.inl hk
    · exact Or.inr (alookup_isSome_of_mem_keys hk)
  · intro hm
    apply alookup_isSome_of_mem_keys
    rw [mem_keys_aset]
    rcases hm with hk | hk
    · exact Or.inl hk
    · exact Or.inr (mem_keys_of_alookup hk)

theorem amem_amodify {α : Type} (l : List (String × α)) (k : String)
    (f : α → α) (h : String) : amem (amodify l k f) h = amem l h := by
  unfold amem
  rw [alookup_amodify]
  by_cases hk : k = h
  · subst hk
    simp
  · simp [hk]

theorem amem_aerase_imp {α : Type} (l : List (String × α)) (k h : String)
    (hm : amem (aerase l k) h = true) : amem l h = true :=
  alookup_isSome_of_mem_keys
    ((keys_aerase_sublist l k).mem (mem_keys_of_alookup hm))

theorem amem_aerase_self {α : Type} (l : List (String × α)) (k : String)
    (hnd : keysNodup l) : amem (aerase l k) k = false := by
  unfold amem
  rw [alookup_aerase_self l k hnd]
  rfl

theorem amem_erase_branch {α : Type} (c : List (String × α)) (k h : String)
    (hm : amem (if amem c k then aerase c k else c) h = true) :
    amem c h = true := by
  by_cases hc : amem c k = true
  · rw [if_pos hc] at hm
    exact amem_aerase_imp _ _ _ hm
  · rwa [if_neg hc] at hm

theorem on_schedule_some_inv (digest : String → String)
    (cronDb : String → Option (Nat → Int)) (mono ts : Int) (s : SchedState)
    (m : Message) (st : SchedState) (ds : List Dispatch)
    (hrun : on_schedule digest cronDb mono ts s m = some (st, ds)) :
    ∃ rc hs, get_run_count_from_headers m.headers = some rc ∧
      schedule_hash digest m = some hs ∧
      (m.interval ≥ 0 ∨ (m.interval < 0 ∧ ∃ f, cronDb m.cron = some f)) := by
  unfold on_schedule at hrun
  cases hrc : get_run_count_from_headers m.headers with
  | none => rw [hrc] at hrun; simp at hrun
  | some rc =>
  rw [hrc] at hrun
  cases hh : schedule_hash digest m with
  | none => rw [hh] at hrun; simp at hrun
  | some hs =>
  rw [hh] at hrun
  refine ⟨rc, hs, rfl, rfl, ?_⟩
  by_cases hint : m.interval ≥ 0
  · exact Or.inl hint
  · right
    have hd : decide (m.interval ≥ 0) = false := decide_eq_false hint
    simp only [Option.bind_eq_bind, Option.some_bind, hd, Bool.false_eq_true,
      if_false] at hrun
    cases hf : cronDb m.cron with
    | none => rw [hf] at hrun; simp at hrun
    | some f => exact ⟨not_le.mp hint, f, rfl⟩

theorem on_schedule_catalog_keys (digest : String → String)
    (cronDb : String → Option (Nat → Int)) (mono ts : Int) (s : SchedState)
    (m : Message) (st : SchedState) (ds : List Dispatch)
    (hrun : on_schedule digest cronDb mono ts s m = some (st, ds)) :
    ∃ hs, schedule_hash digest m = some hs ∧
      ∀ h, (amem st.interval_jobs h || amem st.cron_jobs h) = true →
        h = hs ∨ (amem s.interval_jobs h || amem s.cron_jobs h) = true := by
  obtain ⟨rc, hs, hrc, hh, hcase⟩ :=
    on_schedule_some_inv digest cronDb mono ts s m st ds hrun
  refine ⟨hs, hh, ?_⟩
  intro h hfin
  rcases hcase with hint | ⟨hint, f, hf⟩
  · rw [on_schedule_interval_spec digest cronDb mono ts s m rc hs hrc hh hint]
      at hrun
    have hpair := Option.some.inj hrun
    split_ifs at hpair <;>
    · injection hpair with hst hds
      rw [← hst] at hfin
      simp only [Bool.or_eq_true, amem_amodify, amem_aset_iff] at hfin
      rcases hfin with (rfl | hfi) | hfc
      · exact Or.inl rfl
      · exact Or.inr (by simp [hfi])
      · refine Or.inr ?_
        simp only [Bool.or_eq_true]
        refine Or.inr ?_
        first
        | exact amem_aerase_imp _ _ _ hfc
        | exact hfc
  · rw [on_schedule_cron_spec digest cronDb mono ts s m rc hs f hrc hh hint hf]
      at hrun
    have hpair := Option.some.inj hrun
    split_ifs at hpair <;>
    · injection hpair with hst hds
      rw [← hst] at hfin
      simp only [Bool.or_eq_true, amem_aset_iff] at hfin
      rcases hfin with hfi | (rfl | hfc)
      · refine Or.inr ?_
        simp only [Bool.or_eq_true]
        refine Or.inl ?_
        first
        | exact amem_aerase_imp _ _ _ hfi
        | exact hfi
      · exact Or.inl rfl
      · exact Or.inr (by simp [hfc])

/-- C3: schedule_hash depends only on the six identity fields extracted from
the payload, compared up to dict-key order: two messages whose payloads
carry KeyPerm-related args, kwargs, class_args, class_kwargs, path and
callable hash identically, whatever their queue, headers, interval or cron
expression; and a re-SCHEDULE whose hash is already in the catalog
introduces no new catalog key (the entry is updated, not duplicated). -/
theorem c3_schedule_hash_canonical (digest : String → String)
    (cronDb : String → Option (Nat → Int)) (mono ts : Int)
    (m₁ m₂ : Message) (msg₁ msg₂ : JVal)
    (h₁ : jIndex m₁.payload 1 = some msg₁)
    (h₂ : jIndex m₂.payload 1 = some msg₂)
    (hargs : ∃ v₁ v₂, jGet msg₁ "args" = some v₁ ∧
      jGet msg₂ "args" = some v₂ ∧ KeyPerm v₁ v₂)
    (hkw : ∃ v₁ v₂, jGet msg₁ "kwargs" = some v₁ ∧
      jGet msg₂ "kwargs" = some v₂ ∧ KeyPerm v₁ v₂)
    (hca : ∃ v₁ v₂, jGet msg₁ "class_args" = some v₁ ∧
      jGet msg₂ "class_args" = some v₂ ∧ KeyPerm v₁ v₂)
    (hck : ∃ v₁ v₂, jGet msg₁ "class_kwargs" = some v₁ ∧
      jGet msg₂ "class_kwargs" = some v₂ ∧ KeyPerm v₁ v₂)
    (hpa : ∃ v₁ v₂, jGet msg₁ "path" = some v₁ ∧
      jGet msg₂ "path" = some v₂ ∧ KeyPerm v₁ v₂)
    (hcb : ∃ v₁ v₂, jGet msg₁ "callable" = some v₁ ∧
      jGet msg₂ "callable" = some v₂ ∧ KeyPerm v₁ v₂) :
    schedule_hash digest m₁ = schedule_hash digest m₂ ∧
    (∀ s hs, schedule_hash digest m₂ = some hs →
      (amem s.interval_jobs hs || amem s.cron_jobs hs) = true →
      ∀ h, (amem (handle_schedule digest cronDb mono ts s m₂).1.interval_jobs h
          || amem (handle_schedule digest cronDb mono ts s m₂).1.cron_jobs h)
          = true →
        (amem s.interval_jobs h || amem s.cron_jobs h) = true) := by
  obtain ⟨a₁, a₂, ha₁, ha₂, kpa⟩ := hargs
  obtain ⟨k₁, k₂, hk₁, hk₂, kpk⟩ := hkw
  obtain ⟨ca₁, ca₂, hca₁, hca₂, kpca⟩ := hca
  obtain ⟨ck₁, ck₂, hck₁, hck₂, kpck⟩ := hck
  obtain ⟨p₁, p₂, hp₁, hp₂, kpp⟩ := hpa
  obtain ⟨cb₁, cb₂, hcb₁, hcb₂, kpcb⟩ := hcb
  constructor
  · unfold schedule_hash scheduleHashItems
    simp only [h₁, h₂, ha₁, ha₂, hk₁, hk₂, hca₁, hca₂, hck₁, hck₂, hp₁, hp₂,
      hcb₁, hcb₂]
    have hkp : KeyPerm
        (.jobj [("args", a₁), ("kwargs", k₁), ("class_args", ca₁),
          ("class_kwargs", ck₁), ("path", p₁), ("callable", cb₁)])
        (.jobj [("args", a₂), ("kwargs", k₂), ("class_args", ca₂),
          ("class_kwargs", ck₂), ("path", p₂), ("callable", cb₂)]) :=
      KeyPerm.jobj
        (KeyPermO.cons kpa (KeyPermO.cons kpk (KeyPermO.cons kpca
          (KeyPermO.cons kpck (KeyPermO.cons kpp
            (KeyPermO.cons kpcb KeyPermO.nil))))))
        (List.Perm.refl _)
    simp only [Option.map_some']
    rw [renderJ_keyPerm hkp]
  · intro s hs hhs hmem h hfin
    unfold handle_schedule at hfin
    cases hrun : on_schedule digest cronDb mono ts s m₂ with
    | none =>
      rw [hrun] at hfin
      simpa using hfin
    | some p =>
      rw [hrun] at hfin
      obtain ⟨hs2, hh2, hkeys⟩ :=
        on_schedule_catalog_keys digest cronDb mono ts s m₂ p.1 p.2
          (by rw [hrun])
      have hseq : hs2 = hs := by
        rw [hh2] at hhs
        exact Option.some.inj hhs
      rcases hkeys h (by simpa using hfin) with rfl | hold
      · rw [hseq]
        exact hmem
      · exact hold

/-- C3 witness: two messages with KeyPerm-related identity fields (kwargs
keys reordered) and different queue, headers, interval and cron expression
hash identically, and re-scheduling the second over a catalog that already
holds the hash adds no catalog key. -/
theorem c3_schedule_hash_canonical_witness :
    schedule_hash id c3Msg1 = schedule_hash id c3Msg2 ∧
    (∀ s hs, schedule_hash id c3Msg2 = some hs →
      (amem s.interval_jobs hs || amem s.cron_jobs hs) = true →
      ∀ h, (amem (handle_schedule id sampleCronDb 0 1000 s c3Msg2).1.interval_jobs h
          || amem (handle_schedule id sampleCronDb 0 1000 s c3Msg2).1.cron_jobs h)
          = true →
        (amem s.interval_jobs h || amem s.cron_jobs h) = true) :=
  c3_schedule_hash_canonical id sampleCronDb 0 1000 c3Msg1 c3Msg2 c3Job1 c3Job2
    rfl rfl
    ⟨_, _, rfl, rfl, KeyPerm.jarr KeyPermL.nil⟩
    ⟨_, _, rfl, rfl, KeyPerm.jobj
      (KeyPermO.cons (KeyPerm.jnum 1) (KeyPermO.cons (KeyPerm.jnum 2)
        KeyPermO.nil))
      (List.Perm.swap ("b", JVal.jnum 2) ("a", JVal.jnum 1) [])⟩
    ⟨_, _, rfl, rfl, KeyPerm.jarr KeyPermL.nil⟩
    ⟨_, _, rfl, rfl, KeyPerm.jobj KeyPermO.nil (List.Perm.refl _)⟩
    ⟨_, _, rfl, rfl, KeyPerm.jstr "p"⟩
    ⟨_, _, rfl, rfl, KeyPerm.jstr "f"⟩

theorem bool_eq_false {b : Bool} (h : ¬ b = true) : b = false := by
  cases b
  · rfl
  · exact absurd rfl h

theorem amem_aerase_false {α : Type} (l : List (String × α)) (k h : String)
    (hl : amem l h = false) : amem (aerase l k) h = false := by
  cases hx : amem (aerase l k) h
  · rfl
  · rw [amem_aerase_imp _ _ _ hx] at hl
    cases hl

theorem on_schedule_maps_interval (digest : String → String)
    (cronDb : String → Option (Nat → Int)) (mono ts : Int) (s : SchedState)
    (m : Message) (st : SchedState) (ds : List Dispatch) (rc : Int) (hs : String)
    (hrc : get_run_count_from_headers m.headers = some rc)
    (hh : schedule_hash digest m = some hs)
    (hint : m.interval ≥ 0)
    (hrun : on_schedule digest cronDb mono ts s m = some (st, ds)) :
    ∃ e0, (st.interval_jobs = aset s.interval_jobs hs e0 ∨
        st.interval_jobs = amodify (aset s.interval_jobs hs e0) hs
          (fun e => { e with run_count := e.run_count - 1 })) ∧
      st.cron_jobs = (if amem s.cron_jobs hs then aerase s.cron_jobs hs
        else s.cron_jobs) ∧
      st.store_kv = aset s.store_kv hs m := by
  rw [on_schedule_interval_spec digest cronDb mono ts s m rc hs hrc hh hint]
    at hrun
  have hpair := Option.some.inj hrun
  split_ifs at hpair ⊢ <;>
    (injection hpair with hst hds
     rw [← hst]
     first
     | exact ⟨_, Or.inr rfl, rfl, rfl⟩
     | exact ⟨_, Or.inl rfl, rfl, rfl⟩)

theorem on_schedule_maps_cron (digest : String → String)
    (cronDb : String → Option (Nat → Int)) (mono ts : Int) (s : SchedState)
    (m : Message) (st : SchedState) (ds : List Dispatch) (rc : Int)
    (hs : String) (f : Nat → Int)
    (hrc : get_run_count_from_headers m.headers = some rc)
    (hh : schedule_hash digest m = some hs)
    (hint : m.interval < 0)
    (hf : cronDb m.cron = some f)
    (hrun : on_schedule digest cronDb mono ts s m = some (st, ds)) :
    ∃ ce, st.cron_jobs = aset s.cron_jobs hs ce ∧
      st.interval_jobs = (if amem s.interval_jobs hs then
        aerase s.interval_jobs hs else s.interval_jobs) ∧
      st.store_kv = aset s.store_kv hs m := by
  rw [on_schedule_cron_spec digest cronDb mono ts s m rc hs f hrc hh hint hf]
    at hrun
  have hpair := Option.some.inj hrun
  split_ifs at hpair ⊢ <;>
    (injection hpair with hst hds
     rw [← hst]
     exact ⟨_, rfl, rfl, rfl⟩)

theorem catalogWF_on_schedule (digest : String → String)
    (cronDb : String → Option (Nat → Int)) (mono ts : Int) (s : SchedState)
    (m : Message) (st : SchedState) (ds : List Dispatch)
    (hwf : CatalogWF s)
    (hrun : on_schedule digest cronDb mono ts s m = some (st, ds)) :
    CatalogWF st := by
  obtain ⟨hndi, hndc, hndkv, hdisj⟩ := hwf
  obtain ⟨rc, hs, hrc, hh, hcase⟩ :=
    on_schedule_some_inv digest cronDb mono ts s m st ds hrun
  rcases hcase with hint | ⟨hint, f, hf⟩
  · obtain ⟨e0, hij, hcj, hkv⟩ :=
      on_schedule_maps_interval digest cronDb mono ts s m st ds rc hs
        hrc hh hint hrun
    refine ⟨?_, ?_, ?_, ?_⟩
    · rcases hij with hij | hij <;> rw [hij]
      · exact keysNodup_aset _ _ _ hndi
      · exact keysNodup_amodify _ _ _ (keysNodup_aset _ _ _ hndi)
    · rw [hcj]
      split_ifs
      · exact keysNodup_aerase _ _ hndc
      · exact hndc
    · rw [hkv]
      exact keysNodup_aset _ _ _ hndkv
    · intro h hm
      have hm2 : h = hs ∨ amem s.interval_jobs h = true := by
        rcases hij with hij | hij <;> rw [hij] at hm
        · exact (amem_aset_iff _ _ _ _).mp hm
        · rw [amem_amodify] at hm
          exact (amem_aset_iff _ _ _ _).mp hm
      rw [hcj]
      rcases hm2 with rfl | hm2
      · split_ifs with hc
        · exact amem_aerase_self _ _ hndc
        · exact bool_eq_false hc
      · have hold : amem s.cron_jobs h = false := hdisj h hm2
        split_ifs
        · exact amem_aerase_false _ _ _ hold
        · exact hold
  · obtain ⟨ce, hcj, hij, hkv⟩ :=
      on_schedule_maps_cron digest cronDb mono ts s m st ds rc hs f
        hrc hh hint hf hrun
    refine ⟨?_, ?_, ?_, ?_⟩
    · rw [hij]
      split_ifs
      · exact keysNodup_aerase _ _ hndi
      · exact hndi
    · rw [hcj]
      exact keysNodup_aset _ _ _ hndc
    · rw [hkv]
      exact keysNodup_aset _ _ _ hndkv
    · intro h hm
      rw [hij] at hm
      rw [hcj]
      by_cases hhs : h = hs
      · subst hhs
        split_ifs at hm with hc
        · rw [amem_aerase_self _ _ hndi] at hm
          cases hm
        · exact absurd hm hc
      · have hm2 : amem s.interval_jobs h = true := by
          split_ifs at hm
          · exact amem_aerase_imp _ _ _ hm
          · exact hm
        have hold : amem s.cron_jobs h = false := hdisj h hm2
        cases hx : amem (aset s.cron_jobs hs ce) h
        · rfl
        · rcases (amem_aset_iff _ _ _ _).mp hx with rfl | hx2
          · exact absurd rfl hhs
          · rw [hx2] at hold
            cases hold

theorem catalogWF_unschedule (digest : String → String) (s : SchedState)
    (m : Message) (hwf : CatalogWF s) :
    CatalogWF (handle_unschedule digest s m) := by
  obtain ⟨hndi, hndc, hndkv, hdisj⟩ := hwf
  unfold handle_unschedule
  cases hh : schedule_hash digest m with
  | none =>
    unfold unschedule_job
    rw [hh]
    exact ⟨hndi, hndc, hndkv, hdisj⟩
  | some h =>
    rw [unschedule_job_spec digest s m h hh]
    simp only [Option.getD_some]
    split_ifs <;>
      refine ⟨?_, ?_, ?_, ?_⟩ <;>
      first
      | exact keysNodup_aerase _ _ hndi
      | exact keysNodup_aerase _ _ hndc
      | exact keysNodup_aerase _ _ hndkv
      | exact hndi
      | exact hndc
      | exact hndkv
      | (intro h2 hm
         first
         | exact hdisj h2 hm
         | exact amem_aerase_false _ _ _ (hdisj h2 (amem_aerase_imp _ _ _ hm))
         | exact hdisj h2 (amem_aerase_imp _ _ _ hm)
         | exact amem_aerase_false _ _ _ (hdisj h2 hm))

theorem catalogWF_applyOp (digest : String → String)
    (cronDb : String → Option (Nat → Int)) (s : SchedState) (op : SchedOp)
    (hwf : CatalogWF s) : CatalogWF (applyOp digest cronDb s op) := by
  cases op with
  | schedule mono ts m =>
    simp only [applyOp, handle_schedule]
    cases hrun : on_schedule digest cronDb mono ts s m with
    | none => exact hwf
    | some p =>
      exact catalogWF_on_schedule digest cronDb mono ts s m p.1 p.2 hwf
        (by rw [hrun])
  | unschedule m => exact catalogWF_unschedule digest s m hwf

theorem catalogWF_applyOps (digest : String → String)
    (cronDb : String → Option (Nat → Int)) (s : SchedState)
    (ops : List SchedOp) (hwf : CatalogWF s) :
    CatalogWF (applyOps digest cronDb s ops) := by
  induction ops generalizing s with
  | nil => exact hwf
  | cons op rest ih =>
    exact ih _ (catalogWF_applyOp digest cronDb s op hwf)

theorem catalogWF_emptyState : CatalogWF emptyState := by
  refine ⟨?_, ?_, ?_, ?_⟩
  · simp [keysNodup, emptyState]
  · simp [keysNodup, emptyState]
  · simp [keysNodup, emptyState]
  · intro h hm
    simp [amem, alookup, emptyState] at hm

/-- C5: after any sequence of SCHEDULE and UNSCHEDULE operations applied to
a fresh scheduler, no schedule hash is present in both the interval map and
the cron map: each SCHEDULE installs into one map and removes the hash from
the other, and UNSCHEDULE only removes, so the two maps stay disjoint. -/
theorem c5_maps_disjoint (digest : String → String)
    (cronDb : String → Option (Nat → Int)) (ops : List SchedOp) :
    ∀ h, ¬ (amem (applyOps digest cronDb emptyState ops).interval_jobs h = true ∧
            amem (applyOps digest cronDb emptyState ops).cron_jobs h = true) := by
  intro h hboth
  have hwf := catalogWF_applyOps digest cronDb emptyState ops catalogWF_emptyState
  have hfalse := hwf.2.2.2 h hboth.1
  rw [hboth.2] at hfalse
  cases hfalse

/-- C9: on a well-formed catalog, UNSCHEDULE is idempotent: a second
identical UNSCHEDULE finds the hash in neither map and nothing left in the
store, so it changes nothing; and an UNSCHEDULE whose hash is in neither
map only warns, changing no catalog entry, while the store-side delete is
still attempted (the key is removed if the store holds it, and the list is
purged of it in that case). -/
theorem c9_unschedule_idempotent (digest : String → String) (s : SchedState)
    (m : Message) (hwf : CatalogWF s) :
    handle_unschedule digest (handle_unschedule digest s m) m
      = handle_unschedule digest s m ∧
    (∀ h, schedule_hash digest m = some h →
      amem s.interval_jobs h = false → amem s.cron_jobs h = false →
      (handle_unschedule digest s m).interval_jobs = s.interval_jobs ∧
      (handle_unschedule digest s m).cron_jobs = s.cron_jobs ∧
      (handle_unschedule digest s m).store_kv = aerase s.store_kv h ∧
      ((alookup s.store_kv h).isSome = true →
        (handle_unschedule digest s m).store_list
          = s.store_list.filter (fun x => if x = h then false else true)) ∧
      ((alookup s.store_kv h).isSome = false →
        (handle_unschedule digest s m).store_list = s.store_list)) := by
  obtain ⟨hndi, hndc, hndkv, hdisj⟩ := hwf
  constructor
  · cases hh : schedule_hash digest m with
    | none => simp [handle_unschedule, unschedule_job, hh]
    | some h =>
      have hA : amem (aerase s.interval_jobs h) h = false :=
        amem_aerase_self _ _ hndi
      have hB : amem (aerase s.cron_jobs h) h = false :=
        amem_aerase_self _ _ hndc
      have hC : alookup (aerase s.store_kv h) h = none :=
        alookup_aerase_self _ _ hndkv
      by_cases hmi : amem s.interval_jobs h = true
      · have hmc : amem s.cron_jobs h = false := hdisj h hmi
        by_cases hkv : (alookup s.store_kv h).isSome = true
        · simp [handle_unschedule, unschedule_job, hh, hmi, hmc, hkv, hA, hB, hC]
        · simp [handle_unschedule, unschedule_job, hh, hmi, hmc, hkv, hA, hB, hC]
      · by_cases hmc : amem s.cron_jobs h = true
        · by_cases hkv : (alookup s.store_kv h).isSome = true
          · simp [handle_unschedule, unschedule_job, hh, hmi, hmc, hkv, hA, hB, hC]
          · simp [handle_unschedule, unschedule_job, hh, hmi, hmc, hkv, hA, hB, hC]
        · by_cases hkv : (alookup s.store_kv h).isSome = true
          · simp [handle_unschedule, unschedule_job, hh, hmi, hmc, hkv, hA, hB, hC]
          · simp [handle_unschedule, unschedule_job, hh, hmi, hmc, hkv, hA, hB, hC]
  · intro h hh hmi hmc
    have hmi2 : ¬ amem s.interval_jobs h = true := by simp [hmi]
    have hmc2 : ¬ amem s.cron_jobs h = true := by simp [hmc]
    by_cases hkv : (alookup s.store_kv h).isSome = true
    · refine ⟨?_, ?_, ?_, ?_, ?_⟩ <;>
        simp [handle_unschedule, unschedule_job, hh, hmi2, hmc2, hkv]
    · have hnone : alookup s.store_kv h = none := by
        cases hx : alookup s.store_kv h
        · rfl
        · rw [hx] at hkv
          exact absurd rfl hkv
      have herase : aerase s.store_kv h = s.store_kv :=
        aerase_of_not_found _ _ hnone
      refine ⟨?_, ?_, ?_, ?_, ?_⟩ <;>
        simp [handle_unschedule, unschedule_job, hh, hmi2, hmc2, hkv, herase]

/-- C9 witness: on a one-entry well-formed catalog, unscheduling c1Msg twice
equals unscheduling it once, and unscheduling a message whose hash is in
neither map (the fresh empty catalog) keeps both maps and attempts the
store delete. -/
theorem c9_unschedule_idempotent_witness :
    handle_unschedule id (handle_unschedule id c1Sched.1 c1Msg) c1Msg
      = handle_unschedule id c1Sched.1 c1Msg ∧
    (∀ h, schedule_hash id c1Msg = some h →
      amem c1Sched.1.interval_jobs h = false →
      amem c1Sched.1.cron_jobs h = false →
      (handle_unschedule id c1Sched.1 c1Msg).interval_jobs
        = c1Sched.1.interval_jobs ∧
      (handle_unschedule id c1Sched.1 c1Msg).cron_jobs = c1Sched.1.cron_jobs ∧
      (handle_unschedule id c1Sched.1 c1Msg).store_kv
        = aerase c1Sched.1.store_kv h ∧
      ((alookup c1Sched.1.store_kv h).isSome = true →
        (handle_unschedule id c1Sched.1 c1Msg).store_list
          = c1Sched.1.store_list.filter (fun x => if x = h then false else true)) ∧
      ((alookup c1Sched.1.store_kv h).isSome = false →
        (handle_unschedule id c1Sched.1 c1Msg).store_list
          = c1Sched.1.store_list)) :=
  c9_unschedule_idempotent id c1Sched.1 c1Msg
    ⟨by unfold keysNodup; decide, by unfold keysNodup; decide,
      by unfold keysNodup; decide, fun h hm => rfl⟩

end EventMQ
